import Mathlib

set_option maxHeartbeats 1000000
set_option maxRecDepth 100000

/-!
Verification of the incremental scrape-and-merge engine of
`mtg_tag_scraper.py` (class `MTGDatabaseBuilder`).

The engine is shallowly embedded: JSON values are the inductive `JVal`,
Python dicts are insertion-ordered association lists, the per-label
exception boundary of `_process_tag` is modelled by `Except`-valued
helpers whose error payload carries the partially mutated database
(Python mutates `self.cards_db` in place, so merges preceding an
exception survive it), and the upstream API is an environment mapping
each tag to the sequence of responses its successive requests receive.
-/

/-- JSON values as delivered by the API and stored in the checkpoint.
Numbers are modelled as integers (no verified property inspects numeric
fields, and float formatting is irrelevant to the engine). -/
inductive JVal where
  | null
  | bool (b : Bool)
  | num (n : Int)
  | str (s : String)
  | arr (elems : List JVal)
  | obj (fields : List (String × JVal))

/-- Python `s == v` where `s` is a `str` and `v` an arbitrary value:
true exactly for an equal string (comparison with any other type is
`False`).  This is the element test `tag not in tags` performs. -/
def isStrEq (v : JVal) (s : String) : Bool :=
  match v with
  | .str t => t = s
  | _ => false

/-- A Python dict with `String` keys, as an insertion-ordered association
list: `alookup` is `d[k]` / `d.get(k)` (first match). -/
def alookup {α : Type} : List (String × α) → String → Option α
  | [], _ => none
  | (k, v) :: rest, key => if k = key then some v else alookup rest key

/-- Python dict assignment `d[key] = v`: replaces the value in place if the
key is present (keeping its position), otherwise appends a new entry. -/
def ainsert {α : Type} : List (String × α) → String → α → List (String × α)
  | [], key, v => [(key, v)]
  | (k, w) :: rest, key, v =>
    if k = key then (k, v) :: rest else (k, w) :: ainsert rest key v

/-- The keys of a dict, in insertion order. -/
def akeys {α : Type} (d : List (String × α)) : List String := d.map Prod.fst

/-- A raw card payload or a card record: a JSON object. -/
abbrev Obj := List (String × JVal)

/-- `self.cards_db`: card id → flattened record (a dict of dicts). -/
abbrev Db := List (String × Obj)

mutual

/-- `json.dumps` on a JSON value; nested structures become opaque
serialized blobs for CSV export.  String escaping is omitted: no verified
property inspects the blob text. -/
def dumps : JVal → String
  | .null => "null"
  | .bool true => "true"
  | .bool false => "false"
  | .num n => toString n
  | .str s => "\"" ++ s ++ "\""
  | .arr l => "[" ++ dumpsList l ++ "]"
  | .obj l => "\x7b" ++ dumpsObj l ++ "\x7d"

/-- Comma-joined serialization of a JSON array's elements. -/
def dumpsList : List JVal → String
  | [] => ""
  | [v] => dumps v
  | v :: rest => dumps v ++ ", " ++ dumpsList rest

/-- Comma-joined serialization of a JSON object's entries. -/
def dumpsObj : List (String × JVal) → String
  | [] => ""
  | [(k, v)] => "\"" ++ k ++ "\": " ++ dumps v
  | (k, v) :: rest => "\"" ++ k ++ "\": " ++ dumps v ++ ", " ++ dumpsObj rest

end

/-- `face.get(key, "")` in `_flatten_card_data`'s face loop.  A face that
is not a JSON object would raise in Python (`AttributeError`); that shape
never occurs upstream and no claim exercises it, so it yields `""`. -/
def faceField (face : JVal) (key : String) : JVal :=
  match face with
  | .obj o => (alookup o key).getD (.str "")
  | _ => .str ""

/-- The `face_{i}_name` / `face_{i}_mana_cost` / `face_{i}_type_line` /
`face_{i}_oracle_text` entries produced for `card["card_faces"]`. -/
def flattenFaces (faces : List JVal) : Obj :=
  (faces.enum.map fun p =>
    [("face_" ++ toString p.1 ++ "_name", faceField p.2 "name"),
     ("face_" ++ toString p.1 ++ "_mana_cost", faceField p.2 "mana_cost"),
     ("face_" ++ toString p.1 ++ "_type_line", faceField p.2 "type_line"),
     ("face_" ++ toString p.1 ++ "_oracle_text", faceField p.2 "oracle_text")]).flatten

/-- `MTGDatabaseBuilder._flatten_card_data`: expand `card_faces` into
indexed scalar fields, then copy every other key, serializing list/dict
values with `json.dumps`.  A non-array `card_faces` value would raise in
Python; it never occurs upstream and contributes no face fields here. -/
def flatten_card_data (card : Obj) : Obj :=
  let base : Obj :=
    match alookup card "card_faces" with
    | some (.arr faces) => flattenFaces faces
    | _ => []
  card.foldl (fun acc kv =>
    if kv.1 = "card_faces" then acc
    else
      match kv.2 with
      | .arr l => ainsert acc kv.1 (.str (dumps (.arr l)))
      | .obj l => ainsert acc kv.1 (.str (dumps (.obj l)))
      | v => ainsert acc kv.1 v) base

/-- `card["id"]`: the entity identifier.  A missing `"id"` key raises
`KeyError` in Python, modelled as `none`.  (Scryfall ids are strings;
non-string id values are not modelled, no claim exercises them.) -/
def getId (card : Obj) : Option String :=
  match alookup card "id" with
  | some (.str s) => some s
  | _ => none

/-- `MTGDatabaseBuilder._add_or_update_card`: insert a new card with its
`tags` list initialised to `[tag]`, or append `tag` to the existing
record's `tags` unless already present.  `.error` models the exceptions
the Python code can raise here: `KeyError` when `"id"` is missing, and
the (unreachable from any engine-produced state) failure of appending to
a non-list `tags` value. -/
def add_or_update_card (db : Db) (card : Obj) (tag : String) : Except Unit Db :=
  match getId card with
  | none => .error ()
  | some cid =>
    match alookup db cid with
    | none =>
      let flat := flatten_card_data card
      .ok (ainsert db cid (ainsert flat "tags" (.arr [.str tag])))
    | some rec =>
      match alookup rec "tags" with
      | some (.arr ts) =>
        if ts.any (isStrEq · tag) then .ok db
        else .ok (ainsert db cid (ainsert rec "tags" (.arr (ts ++ [.str tag]))))
      | some _ => .error ()
      | none =>
        .ok (ainsert db cid (ainsert rec "tags" (.arr [.str tag])))

/-- The merge loop of `_process_tag` (`for card in cards: ...`).  Python
mutates `self.cards_db` card by card, so when a merge raises, the cards
already merged stay merged: the `.error` payload is the database at the
point of failure. -/
def mergeLoop (db : Db) (tag : String) : List Obj → Except Db Db
  | [] => .ok db
  | c :: cs =>
    match add_or_update_card db c tag with
    | .error _ => .error db
    | .ok db1 => mergeLoop db1 tag cs

/-! ### Association-list (Python dict) lemmas -/

theorem alookup_ainsert_self {α : Type} (d : List (String × α)) (k : String) (v : α) :
    alookup (ainsert d k v) k = some v := by
  induction d with
  | nil => simp [ainsert, alookup]
  | cons hd tl ih =>
    obtain ⟨k', w⟩ := hd
    by_cases h : k' = k
    · simp [ainsert, h, alookup]
    · simp [ainsert, h, alookup, ih]

theorem alookup_ainsert_ne {α : Type} (d : List (String × α)) (k k' : String) (v : α)
    (h : k' ≠ k) : alookup (ainsert d k v) k' = alookup d k' := by
  induction d with
  | nil => simp [ainsert, alookup, Ne.symm h]
  | cons hd tl ih =>
    obtain ⟨k0, w⟩ := hd
    by_cases h0 : k0 = k
    · subst h0
      have hk : ¬k0 = k' := fun hh => h hh.symm
      simp [ainsert, alookup, hk]
    · simp only [ainsert, if_neg h0, alookup]
      by_cases h1 : k0 = k'
      · simp [h1]
      · simp [h1, ih]

theorem akeys_ainsert_of_mem {α : Type} (d : List (String × α)) (k : String) (v : α)
    (h : (alookup d k).isSome) : akeys (ainsert d k v) = akeys d := by
  induction d with
  | nil => simp [alookup] at h
  | cons hd tl ih =>
    obtain ⟨k0, w⟩ := hd
    by_cases h0 : k0 = k
    · simp [ainsert, h0, akeys]
    · simp only [alookup, if_neg h0] at h
      have htl := ih h
      simp only [akeys, List.map] at htl ⊢
      simp only [ainsert, if_neg h0, List.map, List.cons.injEq, true_and]
      exact htl

theorem akeys_ainsert_of_not_mem {α : Type} (d : List (String × α)) (k : String) (v : α)
    (h : alookup d k = none) : akeys (ainsert d k v) = akeys d ++ [k] := by
  induction d with
  | nil => simp [ainsert, akeys]
  | cons hd tl ih =>
    obtain ⟨k0, w⟩ := hd
    by_cases h0 : k0 = k
    · simp [alookup, h0] at h
    · simp only [alookup, if_neg h0] at h
      have htl := ih h
      simp only [akeys, List.map] at htl ⊢
      simp only [ainsert, if_neg h0, List.map, List.cons_append, List.cons.injEq, true_and]
      exact htl

theorem alookup_eq_none_of_not_mem_akeys {α : Type} (d : List (String × α)) (k : String)
    (h : k ∉ akeys d) : alookup d k = none := by
  induction d with
  | nil => simp [alookup]
  | cons hd tl ih =>
    obtain ⟨k0, w⟩ := hd
    have hh : k ∉ k0 :: akeys tl := h
    simp only [List.mem_cons, not_or] at hh
    have hk : ¬k0 = k := fun he => hh.1 he.symm
    simp [alookup, hk, ih hh.2]

theorem mem_akeys_of_alookup {α : Type} (d : List (String × α)) (k : String)
    (h : (alookup d k).isSome) : k ∈ akeys d := by
  by_contra hmem
  rw [alookup_eq_none_of_not_mem_akeys d k hmem] at h
  simp at h

/-! ### Unique-key invariant (claim C5) -/

/-- The database transformation of one `_add_or_update_card` call: a call
that raises leaves `self.cards_db` as it was (both raising paths —
`KeyError` on a missing id and the failing append — occur before any
mutation of the table). -/
def mergeStep (db : Db) (p : String × Obj) : Db :=
  match add_or_update_card db p.2 p.1 with
  | .ok db1 => db1
  | .error _ => db

/-- The accumulator after a sequence of `(tag, card)` merge calls,
starting from the empty table a fresh builder owns. -/
def mergeSeq (ops : List (String × Obj)) : Db :=
  ops.foldl mergeStep []

/-- The identifiers of the entity payloads appearing in a merge
sequence (payloads without an id never enter the table). -/
def idsOf (ops : List (String × Obj)) : List String :=
  ops.filterMap fun p => getId p.2

theorem akeys_add_or_update (db : Db) (card : Obj) (tag : String) (db1 : Db)
    (h : add_or_update_card db card tag = .ok db1) :
    ∃ i, getId card = some i ∧
      ((alookup db i = none ∧ akeys db1 = akeys db ++ [i]) ∨
       ((alookup db i).isSome ∧ akeys db1 = akeys db)) := by
  rcases hid : getId card with _ | cid
  · simp only [add_or_update_card, hid] at h
    cases h
  · refine ⟨cid, rfl, ?_⟩
    rcases hdb : alookup db cid with _ | rec
    · simp only [add_or_update_card, hid, hdb, Except.ok.injEq] at h
      subst h
      exact Or.inl ⟨rfl, akeys_ainsert_of_not_mem db cid _ hdb⟩
    · rcases htags : alookup rec "tags" with _ | v
      · simp only [add_or_update_card, hid, hdb, htags, Except.ok.injEq] at h
        subst h
        exact Or.inr ⟨by simp [hdb], akeys_ainsert_of_mem db cid _ (by simp [hdb])⟩
      · rcases v with _ | b | n | s | ts | o <;>
          simp only [add_or_update_card, hid, hdb, htags] at h <;>
          try cases h
        case arr =>
        by_cases hmem : ts.any (isStrEq · tag) = true
        · rw [if_pos hmem] at h
          simp only [Except.ok.injEq] at h
          subst h
          exact Or.inr ⟨by simp [hdb], rfl⟩
        · rw [if_neg hmem] at h
          simp only [Except.ok.injEq] at h
          subst h
          exact Or.inr ⟨by simp [hdb], akeys_ainsert_of_mem db cid _ (by simp [hdb])⟩

theorem alookup_isSome_of_mem_akeys {α : Type} (d : List (String × α)) (k : String)
    (h : k ∈ akeys d) : (alookup d k).isSome := by
  induction d with
  | nil => simp [akeys] at h
  | cons hd tl ih =>
    obtain ⟨k0, w⟩ := hd
    have hh : k ∈ k0 :: akeys tl := h
    by_cases h0 : k0 = k
    · simp [alookup, h0]
    · rcases List.mem_cons.mp hh with h1 | h1
      · exact absurd h1.symm h0
      · simp [alookup, h0, ih h1]

theorem akeys_mergeStep_nodup (db : Db) (p : String × Obj)
    (h : (akeys db).Nodup) : (akeys (mergeStep db p)).Nodup := by
  unfold mergeStep
  rcases hadd : add_or_update_card db p.2 p.1 with _ | db1
  · exact h
  · obtain ⟨i, _, hcase⟩ := akeys_add_or_update db p.2 p.1 db1 hadd
    rcases hcase with ⟨hnone, hk⟩ | ⟨_, hk⟩
    · rw [hk]
      have hni : i ∉ akeys db := fun hm => by
        have := alookup_isSome_of_mem_akeys db i hm
        rw [hnone] at this
        simp at this
      simp [List.nodup_append, h, hni]
    · rw [hk]; exact h

theorem akeys_mergeStep_subset (db : Db) (p : String × Obj) :
    akeys (mergeStep db p) ⊆ akeys db ++ (getId p.2).toList := by
  unfold mergeStep
  rcases hadd : add_or_update_card db p.2 p.1 with _ | db1
  · exact fun x hx => List.mem_append_left _ hx
  · obtain ⟨i, hid, hcase⟩ := akeys_add_or_update db p.2 p.1 db1 hadd
    rw [hid]
    rcases hcase with ⟨_, hk⟩ | ⟨_, hk⟩ <;> rw [hk]
    · exact fun x hx => by simpa using List.mem_append.mp hx
    · exact fun x hx => List.mem_append_left _ hx

theorem idsOf_cons (p : String × Obj) (rest : List (String × Obj)) :
    idsOf (p :: rest) = (getId p.2).toList ++ idsOf rest := by
  simp only [idsOf, List.filterMap_cons]
  rcases getId p.2 <;> simp

theorem mergeSeq_nodup_aux (ops : List (String × Obj)) (db : Db)
    (h : (akeys db).Nodup) : (akeys (ops.foldl mergeStep db)).Nodup := by
  induction ops generalizing db with
  | nil => exact h
  | cons p rest ih => exact ih _ (akeys_mergeStep_nodup db p h)

theorem mergeSeq_subset_aux (ops : List (String × Obj)) (db : Db) :
    akeys (ops.foldl mergeStep db) ⊆ akeys db ++ idsOf ops := by
  induction ops generalizing db with
  | nil => simp [idsOf]
  | cons p rest ih =>
    intro x hx
    have h1 := ih (mergeStep db p) hx
    rw [idsOf_cons]
    rcases List.mem_append.mp h1 with h2 | h2
    · have h3 := akeys_mergeStep_subset db p h2
      rcases List.mem_append.mp h3 with h4 | h4
      · exact List.mem_append_left _ h4
      · exact List.mem_append_right _ (List.mem_append_left _ h4)
    · exact List.mem_append_right _ (List.mem_append_right _ h2)

/-- Claim C5: after any sequence of merge calls over arbitrary labels and
payloads (from the empty accumulator a fresh builder owns), at every
intermediate point the accumulator holds exactly one record per
identifier (its key list is duplicate-free), and the number of distinct
identifiers it holds never exceeds the number of distinct identifiers
among the payloads merged so far. -/
theorem unique_key_invariant (ops : List (String × Obj)) (n : Nat) :
    (akeys (mergeSeq (ops.take n))).Nodup ∧
    (akeys (mergeSeq (ops.take n))).length ≤ (idsOf (ops.take n)).dedup.length := by
  have hnd := mergeSeq_nodup_aux (ops.take n) [] (by simp [akeys])
  refine ⟨hnd, ?_⟩
  have hsub : akeys (mergeSeq (ops.take n)) ⊆ idsOf (ops.take n) := by
    have h := mergeSeq_subset_aux (ops.take n) []
    simpa [akeys] using h
  calc (akeys (mergeSeq (ops.take n))).length
      = (akeys (mergeSeq (ops.take n))).toFinset.card :=
        (List.toFinset_card_of_nodup hnd).symm
    _ ≤ (idsOf (ops.take n)).toFinset.card :=
        Finset.card_le_card fun x hx => by
          rw [List.mem_toFinset] at hx ⊢
          exact hsub hx
    _ = (idsOf (ops.take n)).dedup.length := List.card_toFinset _

/-- One JSON page of `GET /cards/search` results, as `_search_tag` reads
it: `data` is `none` when the `"data"` key is absent, `has_more` is the
truthiness of `data.get("has_more")`, `next_page` is
`data.get("next_page")`. -/
structure PageData where
  data : Option (List Obj)
  has_more : Bool
  next_page : Option String

/-- What one `requests.get` inside `_make_request` comes back with:
a JSON page (2xx), 404, 429 (rate limited), or any other unsuccessful
status (which `raise_for_status` turns into an `HTTPError`). -/
inductive Resp where
  | page (p : PageData)
  | notFound
  | rateLimited
  | otherError

/-- The `while url:` loop of `_search_tag` together with `_make_request`'s
retry-on-429, driven by the sequence of responses the successive requests
receive.  Returns the collected card payloads and the number of requests
issued; `.error` is the re-raised non-404 `HTTPError`.  An exhausted
response list ends the loop with what was collected (the environment
supplies a response for every request a terminating run makes). -/
def searchTagGo : List Resp → List Obj → Nat → Except Unit (List Obj × Nat)
  | [], acc, n => .ok (acc, n)
  | r :: rest, acc, n =>
    match r with
    | .rateLimited => searchTagGo rest acc (n + 1)
    | .notFound => .ok (acc, n + 1)
    | .otherError => .error ()
    | .page p =>
      match p.data with
      | none => .ok (acc, n + 1)
      | some cards =>
        match (if p.has_more then p.next_page else none) with
        | none => .ok (acc ++ cards, n + 1)
        | some _ => searchTagGo rest (acc ++ cards) (n + 1)

/-- `MTGDatabaseBuilder._search_tag`: all cards matching a tag, following
`next_page` while `has_more`, treating a 404 as end of results. -/
def search_tag (resps : List Resp) : Except Unit (List Obj × Nat) :=
  searchTagGo resps [] 0

/-- `CHECKPOINT_INTERVAL = 500`: save checkpoint every N tags. -/
def CHECKPOINT_INTERVAL : Nat := 500

/-- The content `_save_checkpoint` writes: the processed-tag set (as a
list) and the card table.  The `last_updated` timestamp is display-only
and not modelled. -/
structure Checkpoint where
  processed_tags : List String
  cards_db : Db

/-- The engine's mutable state: `self.cards_db`, `self.processed_tags`
(a Python set, kept as a duplicate-free list), plus the observable
checkpoint history — `saves` records every checkpoint successfully
written and `saveAttempts` counts every `_save_checkpoint` call, so that
write failures can be injected per attempt.  (`request_count` and
`start_time` feed progress printing only and are not modelled.) -/
structure BuilderState where
  cards_db : Db
  processed : List String
  saves : List Checkpoint
  saveAttempts : Nat

/-- The world outside the engine: the response stream each tag's search
produces, and which checkpoint-write attempts fail (an exception from
`json.dump`/`open` on the n-th `_save_checkpoint` call). -/
structure Env where
  fetch : String → List Resp
  saveFails : Nat → Bool

/-- The state a fresh builder starts from when no checkpoint file exists. -/
def initState : BuilderState :=
  { cards_db := [], processed := [], saves := [], saveAttempts := 0 }

/-- The checkpoint `_save_checkpoint` would write from a state. -/
def checkpointOf (st : BuilderState) : Checkpoint :=
  { processed_tags := st.processed, cards_db := st.cards_db }

/-- `MTGDatabaseBuilder._load_checkpoint` on an existing, parsable
checkpoint file: `processed_tags = set(checkpoint.get("processed_tags"))`
(dedup), `cards_db = checkpoint.get("cards_db")`, into a fresh builder. -/
def load_checkpoint (cp : Checkpoint) : BuilderState :=
  { cards_db := cp.cards_db, processed := cp.processed_tags.dedup,
    saves := [], saveAttempts := 0 }

/-- `MTGDatabaseBuilder._process_tag`: skip an already-processed tag;
otherwise fetch, merge card by card, mark the tag processed, and save a
checkpoint when the processed count hits a multiple of
`CHECKPOINT_INTERVAL`.  The whole body sits in `try/except Exception`,
so a fetch error leaves the state untouched, a merge error keeps the
partially merged database, and a checkpoint-write error is swallowed
after the tag was already marked processed. -/
def process_tag (env : Env) (st : BuilderState) (tag : String) : BuilderState :=
  if tag ∈ st.processed then st
  else
    match search_tag (env.fetch tag) with
    | .error _ => st
    | .ok (cards, _) =>
      match mergeLoop st.cards_db tag cards with
      | .error dbMid => { st with cards_db := dbMid }
      | .ok db1 =>
        let processed1 := st.processed ++ [tag]
        let st1 := { st with cards_db := db1, processed := processed1 }
        if processed1.length % CHECKPOINT_INTERVAL = 0 then
          let attempt := st1.saveAttempts + 1
          if env.saveFails attempt then { st1 with saveAttempts := attempt }
          else { st1 with saveAttempts := attempt,
                          saves := st1.saves ++ [checkpointOf st1] }
        else st1

/-- The tag loop of `build_database` (`for i, tag in enumerate(...)`) —
the loop-level `continue` for processed tags duplicates the check at the
top of `_process_tag`. -/
def runTags (env : Env) (st : BuilderState) (tags : List String) : BuilderState :=
  tags.foldl (process_tag env) st

/-- `MTGDatabaseBuilder.build_database`: run every tag, then the final
`_save_checkpoint` at line 227, which is outside any handler — its
failure propagates (`.error`).  CSV export afterwards is out of scope. -/
def build_database (env : Env) (st : BuilderState) (tags : List String) :
    Except BuilderState BuilderState :=
  let st1 := runTags env st tags
  let attempt := st1.saveAttempts + 1
  if env.saveFails attempt then .error { st1 with saveAttempts := attempt }
  else .ok { st1 with saveAttempts := attempt,
                      saves := st1.saves ++ [checkpointOf st1] }

/-- How a run ends, as `main` sees it: normal completion, a fatal
exception (`except Exception`: prints a traceback, `sys.exit(1)`), or a
`KeyboardInterrupt` (prints the resume notice, `sys.exit(0)`). -/
inductive RunOutcome where
  | completed (st : BuilderState)
  | fatal (st : BuilderState)
  | interrupted (st : BuilderState)

/-- The builder state a run outcome ends in. -/
def RunOutcome.state : RunOutcome → BuilderState
  | .completed st => st
  | .fatal st => st
  | .interrupted st => st

/-- Whether the outcome is normal completion. -/
def RunOutcome.isCompleted : RunOutcome → Bool
  | .completed _ => true
  | _ => false

/-- The process exit status `main` produces for each outcome:
`sys.exit(0)` on completion, `sys.exit(1)` on a fatal exception, and
`sys.exit(0)` after the resume notice on `KeyboardInterrupt`. -/
def RunOutcome.exitCode : RunOutcome → Nat
  | .completed _ => 0
  | .fatal _ => 1
  | .interrupted _ => 0

/-- `main` running `build_database`: `interruptAfter = some k` models a
`KeyboardInterrupt` delivered between label iterations after `k` of
them — it is not an `Exception`, so `_process_tag`'s handler does not
catch it; it propagates out of `build_database` before the final save
and `main` merely prints the resume notice and exits 0.
`interruptAfter = none` is an uninterrupted run. -/
def mainRun (env : Env) (st : BuilderState) (tags : List String)
    (interruptAfter : Option Nat) : RunOutcome :=
  match interruptAfter with
  | some k => .interrupted (runTags env st (tags.take k))
  | none =>
    match build_database env st tags with
    | .ok st1 => .completed st1
    | .error st1 => .fatal st1

example : alookup (ainsert ([] : Obj) "a" .null) "a" = some .null := rfl

example :
    add_or_update_card [] [("id", .str "x"), ("name", .str "X")] "t1" =
      .ok [("x", [("id", .str "x"), ("name", .str "X"),
                  ("tags", .arr [.str "t1"])])] := rfl

/-! ### Idempotence of `_add_or_update_card` (claim C4) -/

/-- After a successful merge of `(card, tag)`, the record at the card's
id carries `tag` in its `tags` array. -/
theorem add_ok_tagged (db : Db) (card : Obj) (tag : String) (db1 : Db) (cid : String)
    (h : add_or_update_card db card tag = .ok db1) (hid : getId card = some cid) :
    ∃ rec ts, alookup db1 cid = some rec ∧ alookup rec "tags" = some (.arr ts) ∧
      ts.any (isStrEq · tag) = true := by
  rcases hdb : alookup db cid with _ | rec
  · simp only [add_or_update_card, hid, hdb, Except.ok.injEq] at h
    subst h
    refine ⟨_, [.str tag], alookup_ainsert_self .., alookup_ainsert_self .., ?_⟩
    simp [isStrEq]
  · rcases htags : alookup rec "tags" with _ | v
    · simp only [add_or_update_card, hid, hdb, htags, Except.ok.injEq] at h
      subst h
      refine ⟨_, [.str tag], alookup_ainsert_self .., alookup_ainsert_self .., ?_⟩
      simp [isStrEq]
    · rcases v with _ | b | n | s | ts | o <;>
        simp only [add_or_update_card, hid, hdb, htags] at h <;>
        try cases h
      case arr =>
      by_cases hmem : ts.any (isStrEq · tag) = true
      · rw [if_pos hmem] at h
        simp only [Except.ok.injEq] at h
        subst h
        exact ⟨rec, ts, hdb, htags, hmem⟩
      · rw [if_neg hmem] at h
        simp only [Except.ok.injEq] at h
        subst h
        refine ⟨_, ts ++ [.str tag], alookup_ainsert_self .., alookup_ainsert_self .., ?_⟩
        simp [isStrEq]

/-- If the record at the card's id already carries `tag`, the merge is a
no-op returning the database unchanged. -/
theorem add_noop (db : Db) (card : Obj) (tag : String) (cid : String) (rec : Obj)
    (ts : List JVal) (hid : getId card = some cid) (hdb : alookup db cid = some rec)
    (htags : alookup rec "tags" = some (.arr ts)) (hmem : ts.any (isStrEq · tag) = true) :
    add_or_update_card db card tag = .ok db := by
  simp only [add_or_update_card, hid, hdb, htags, if_pos hmem]

/-- Claim C4: merging the same `(tag, card)` pair a second time leaves the
accumulator literally unchanged — not merely unchanged up to `labels`
order.  (A payload with an identifier is one whose first merge succeeds.) -/
theorem merge_idempotent (db : Db) (card : Obj) (tag : String) (db1 : Db)
    (h : add_or_update_card db card tag = .ok db1) :
    add_or_update_card db1 card tag = .ok db1 := by
  rcases hid : getId card with _ | cid
  · simp only [add_or_update_card, hid] at h
    cases h
  · obtain ⟨rec, ts, hdb1, htags, hmem⟩ := add_ok_tagged db card tag db1 cid h hid
    exact add_noop db1 card tag cid rec ts hid hdb1 htags hmem

/-- Witness for C4: a concrete double merge. -/
theorem merge_idempotent_witness :
    add_or_update_card [("x", [("id", .str "x"), ("tags", .arr [.str "t1"])])]
        [("id", .str "x")] "t1" =
      .ok [("x", [("id", .str "x"), ("tags", .arr [.str "t1"])])] :=
  merge_idempotent [] [("id", .str "x")] "t1"
    [("x", [("id", .str "x"), ("tags", .arr [.str "t1"])])] rfl

/-! ### Pagination (claims C6, C7, C10) -/

/-- A fully-successful intermediate page: its `data` array is present,
`has_more` is set, and a continuation URL is given. -/
theorem searchTagGo_front (front : List PageData)
    (hfront : ∀ p ∈ front, p.data.isSome = true ∧ p.has_more = true ∧
      p.next_page.isSome = true)
    (rest : List Resp) (acc : List Obj) (n : Nat) :
    searchTagGo (front.map Resp.page ++ rest) acc n =
      searchTagGo rest (acc ++ (front.map fun p => p.data.getD []).flatten)
        (n + front.length) := by
  induction front generalizing acc n with
  | nil => simp
  | cons p front' ih =>
    obtain ⟨h1, h2, h3⟩ := hfront p (by simp)
    obtain ⟨cards, hcards⟩ := Option.isSome_iff_exists.mp h1
    obtain ⟨u, hu⟩ := Option.isSome_iff_exists.mp h3
    simp only [List.map_cons, List.cons_append, searchTagGo, hcards, h2, hu,
      if_true, List.append_eq]
    rw [ih (fun q hq => hfront q (by simp [hq]))]
    simp only [List.map_cons, List.flatten_cons, hcards, Option.getD_some]
    rw [List.append_assoc]
    congr 1
    simp only [List.length_cons]
    omega

/-- Claim C6: over a run of successful pages where every page before the
last announces more results and the last does not, the fetch loop returns
the concatenation of all pages' `data` arrays in order, and issues exactly
one request per page — nothing after the `has_more=false` page, whatever
(`extra`) the environment would have answered next. -/
theorem pagination_exhaustion (front : List PageData) (last : PageData)
    (extra : List Resp)
    (hfront : ∀ p ∈ front, p.data.isSome = true ∧ p.has_more = true ∧
      p.next_page.isSome = true)
    (hlast : last.data.isSome = true) (hmore : last.has_more = false) :
    search_tag ((front ++ [last]).map Resp.page ++ extra) =
      .ok (((front ++ [last]).map fun p => p.data.getD []).flatten,
           front.length + 1) := by
  obtain ⟨cards, hcards⟩ := Option.isSome_iff_exists.mp hlast
  unfold search_tag
  rw [List.map_append, List.append_assoc]
  rw [searchTagGo_front front hfront _ [] 0]
  simp [searchTagGo, hcards, hmore, Nat.add_comm]

/-- Witness for C6: two continuing pages, a final page, and a trailing
response that is never requested. -/
theorem pagination_exhaustion_witness :
    search_tag (([⟨some [[("id", JVal.str "a")]], true, some "u1"⟩,
                  ⟨some [[("id", JVal.str "b")]], true, some "u2"⟩,
                  ⟨some [[("id", JVal.str "c")]], false, none⟩] :
        List PageData).map Resp.page ++ [Resp.otherError]) =
      .ok ((([⟨some [[("id", JVal.str "a")]], true, some "u1"⟩,
              ⟨some [[("id", JVal.str "b")]], true, some "u2"⟩,
              ⟨some [[("id", JVal.str "c")]], false, none⟩] :
        List PageData).map fun p => p.data.getD []).flatten, 3) :=
  pagination_exhaustion
    [⟨some [[("id", JVal.str "a")]], true, some "u1"⟩,
     ⟨some [[("id", JVal.str "b")]], true, some "u2"⟩]
    ⟨some [[("id", JVal.str "c")]], false, none⟩
    [Resp.otherError] (by decide) rfl rfl

/-- A tag already in the processed set is skipped outright. -/
theorem process_tag_skip (env : Env) (st : BuilderState) (tag : String)
    (h : tag ∈ st.processed) : process_tag env st tag = st := by
  simp [process_tag, h]

/-- Claim C7: a 404 on the first search request for an unprocessed tag is
treated as an empty result — no exception escapes (the function returns
normally), the accumulator is untouched, and the tag is still added to
the processed set. -/
theorem notFound_as_empty (env : Env) (st : BuilderState) (tag : String)
    (rest : List Resp)
    (h1 : tag ∉ st.processed) (h2 : env.fetch tag = Resp.notFound :: rest) :
    (process_tag env st tag).cards_db = st.cards_db ∧
    (process_tag env st tag).processed = st.processed ++ [tag] := by
  simp only [process_tag, if_neg h1, h2, search_tag, searchTagGo, mergeLoop]
  constructor
  · split
    · split <;> rfl
    · rfl
  · split
    · split <;> rfl
    · rfl

def envC7 : Env := { fetch := fun _ => [Resp.notFound], saveFails := fun _ => false }

/-- Witness for C7 at a concrete state and tag. -/
theorem notFound_as_empty_witness :
    (process_tag envC7 initState "deathtouch").cards_db = initState.cards_db ∧
    (process_tag envC7 initState "deathtouch").processed =
      initState.processed ++ ["deathtouch"] :=
  notFound_as_empty envC7 initState "deathtouch" [] (by simp [initState]) rfl

/-- Claim C10: a 404 arriving mid-pagination stops the fetch loop, which
returns the entities of the pages already received; `_process_tag` merges
those partial results, marks the tag processed, and a subsequent run
skips the tag entirely (no retry). -/
theorem mid_pagination_404 (env : Env) (st : BuilderState) (tag : String)
    (front : List PageData) (db1 : Db)
    (h1 : tag ∉ st.processed)
    (hfront : ∀ p ∈ front, p.data.isSome = true ∧ p.has_more = true ∧
      p.next_page.isSome = true)
    (h2 : env.fetch tag = front.map Resp.page ++ [Resp.notFound])
    (hm : mergeLoop st.cards_db tag ((front.map fun p => p.data.getD []).flatten) =
      .ok db1) :
    search_tag (env.fetch tag) =
      .ok ((front.map fun p => p.data.getD []).flatten, front.length + 1) ∧
    (process_tag env st tag).cards_db = db1 ∧
    (process_tag env st tag).processed = st.processed ++ [tag] ∧
    process_tag env (process_tag env st tag) tag = process_tag env st tag := by
  have hs : search_tag (env.fetch tag) =
      .ok ((front.map fun p => p.data.getD []).flatten, front.length + 1) := by
    rw [h2]
    unfold search_tag
    rw [searchTagGo_front front hfront _ [] 0]
    simp [searchTagGo, Nat.add_comm]
  have hdb : (process_tag env st tag).cards_db = db1 ∧
      (process_tag env st tag).processed = st.processed ++ [tag] := by
    simp only [process_tag, if_neg h1, hs, hm]
    constructor
    · split
      · split <;> rfl
      · rfl
    · split
      · split <;> rfl
      · rfl
  refine ⟨hs, hdb.1, hdb.2, ?_⟩
  exact process_tag_skip env _ tag (by rw [hdb.2]; simp)

def envC10 : Env :=
  { fetch := fun _ => [Resp.page ⟨some [[("id", JVal.str "c1")]], true, some "u"⟩,
                       Resp.notFound],
    saveFails := fun _ => false }

/-- Witness for C10 at a concrete one-page-then-404 environment. -/
theorem mid_pagination_404_witness :
    search_tag (envC10.fetch "lifelink") =
      .ok ((([⟨some [[("id", JVal.str "c1")]], true, some "u"⟩] :
          List PageData).map fun p => p.data.getD []).flatten, 2) ∧
    (process_tag envC10 initState "lifelink").cards_db =
      [("c1", [("id", JVal.str "c1"), ("tags", JVal.arr [JVal.str "lifelink"])])] ∧
    (process_tag envC10 initState "lifelink").processed =
      initState.processed ++ ["lifelink"] ∧
    process_tag envC10 (process_tag envC10 initState "lifelink") "lifelink" =
      process_tag envC10 initState "lifelink" :=
  mid_pagination_404 envC10 initState "lifelink"
    [⟨some [[("id", JVal.str "c1")]], true, some "u"⟩]
    [("c1", [("id", JVal.str "c1"), ("tags", JVal.arr [JVal.str "lifelink"])])]
    (by simp [initState]) (by decide) rfl rfl

/-! ### Case equations for `_process_tag` -/

theorem process_tag_fetch_err (env : Env) (st : BuilderState) (tag : String)
    (h1 : tag ∉ st.processed) (h2 : search_tag (env.fetch tag) = .error ()) :
    process_tag env st tag = st := by
  simp only [process_tag, if_neg h1, h2]

theorem process_tag_merge_err (env : Env) (st : BuilderState) (tag : String)
    (cards : List Obj) (n : Nat) (dbMid : Db)
    (h1 : tag ∉ st.processed) (h2 : search_tag (env.fetch tag) = .ok (cards, n))
    (h3 : mergeLoop st.cards_db tag cards = .error dbMid) :
    process_tag env st tag = { st with cards_db := dbMid } := by
  simp only [process_tag, if_neg h1, h2, h3]

theorem process_tag_merge_ok (env : Env) (st : BuilderState) (tag : String)
    (cards : List Obj) (n : Nat) (db1 : Db)
    (h1 : tag ∉ st.processed) (h2 : search_tag (env.fetch tag) = .ok (cards, n))
    (h3 : mergeLoop st.cards_db tag cards = .ok db1) :
    process_tag env st tag =
      (let st1 : BuilderState :=
        { st with cards_db := db1, processed := st.processed ++ [tag] }
       if (st.processed ++ [tag]).length % CHECKPOINT_INTERVAL = 0 then
         if env.saveFails (st.saveAttempts + 1) then
           { st1 with saveAttempts := st.saveAttempts + 1 }
         else
           { st1 with saveAttempts := st.saveAttempts + 1,
                      saves := st.saves ++ [checkpointOf st1] }
       else st1) := by
  simp only [process_tag, if_neg h1, h2, h3]

/-! ### Per-label failure isolation (claim C8) -/

def st8 : BuilderState :=
  { cards_db := [("x", [("id", JVal.str "x"), ("tags", JVal.arr [JVal.str "t1"])])],
    processed := ["t1"], saves := [], saveAttempts := 0 }

def env8 : Env :=
  { fetch := fun _ =>
      [Resp.page ⟨some [[("id", JVal.str "x")], [("name", JVal.str "B")]],
                  false, none⟩],
    saveFails := fun _ => false }

/-- Counterexample to C8 as stated: label `t2` fails mid-merge (its second
payload has no id), the label is indeed left unprocessed — but the record
`x`, which was already in the accumulator before `t2` started, has been
changed: `t2` was appended to its tags before the failing payload was
reached. -/
theorem per_label_frame_cex :
    alookup st8.cards_db "x" =
      some [("id", JVal.str "x"), ("tags", JVal.arr [JVal.str "t1"])] ∧
    "t2" ∉ (process_tag env8 st8 "t2").processed ∧
    alookup (process_tag env8 st8 "t2").cards_db "x" =
      some [("id", JVal.str "x"),
            ("tags", JVal.arr [JVal.str "t1", JVal.str "t2"])] ∧
    alookup (process_tag env8 st8 "t2").cards_db "x" ≠ alookup st8.cards_db "x" := by
  refine ⟨rfl, by decide, rfl, ?_⟩
  intro h
  rw [show alookup (process_tag env8 st8 "t2").cards_db "x" =
        some [("id", JVal.str "x"),
              ("tags", JVal.arr [JVal.str "t1", JVal.str "t2"])] from rfl,
      show alookup st8.cards_db "x" =
        some [("id", JVal.str "x"), ("tags", JVal.arr [JVal.str "t1"])] from rfl] at h
  simp at h

/-- C8 amended: a label whose fetch fails with a non-404/429 response
leaves the entire state unchanged and the loop moves on to the next
label; a label whose merge raises mid-way is left unprocessed (and no
checkpoint is written) and the loop moves on, but the accumulator keeps
the merges performed before the failing payload — which may include a
tag appended to a record that existed before the label started. -/
theorem per_label_frame_amended :
    (∀ (env : Env) (st : BuilderState) (tag : String) (rest : List String),
      tag ∉ st.processed → search_tag (env.fetch tag) = .error () →
      process_tag env st tag = st ∧
      runTags env st (tag :: rest) = runTags env st rest) ∧
    (∀ (env : Env) (st : BuilderState) (tag : String) (cards : List Obj)
        (n : Nat) (dbMid : Db),
      tag ∉ st.processed → search_tag (env.fetch tag) = .ok (cards, n) →
      mergeLoop st.cards_db tag cards = .error dbMid →
      (process_tag env st tag).processed = st.processed ∧
      (process_tag env st tag).cards_db = dbMid ∧
      (process_tag env st tag).saves = st.saves ∧
      (∀ rest, runTags env st (tag :: rest) =
        runTags env (process_tag env st tag) rest)) := by
  constructor
  · intro env st tag rest h1 h2
    have he := process_tag_fetch_err env st tag h1 h2
    exact ⟨he, by simp only [runTags, List.foldl_cons, he]⟩
  · intro env st tag cards n dbMid h1 h2 h3
    have he := process_tag_merge_err env st tag cards n dbMid h1 h2 h3
    exact ⟨by rw [he], by rw [he], by rw [he],
      fun rest => by simp only [runTags, List.foldl_cons]⟩

def env8a : Env := { fetch := fun _ => [Resp.otherError], saveFails := fun _ => false }

/-- Witness for the amended C8 at concrete scenarios. -/
theorem per_label_frame_witness :
    (process_tag env8a st8 "t9" = st8 ∧
     runTags env8a st8 ["t9", "t3"] = runTags env8a st8 ["t3"]) ∧
    ((process_tag env8 st8 "t2").processed = st8.processed ∧
     (process_tag env8 st8 "t2").cards_db =
       [("x", [("id", JVal.str "x"),
               ("tags", JVal.arr [JVal.str "t1", JVal.str "t2"])])] ∧
     (process_tag env8 st8 "t2").saves = st8.saves ∧
     (∀ rest, runTags env8 st8 ("t2" :: rest) =
       runTags env8 (process_tag env8 st8 "t2") rest)) :=
  ⟨per_label_frame_amended.1 env8a st8 "t9" ["t3"] (by decide) rfl,
   per_label_frame_amended.2 env8 st8 "t2"
     [[("id", JVal.str "x")], [("name", JVal.str "B")]] 1
     [("x", [("id", JVal.str "x"),
             ("tags", JVal.arr [JVal.str "t1", JVal.str "t2"])])]
     (by decide) rfl rfl⟩

/-! ### Checkpoint cadence (claim C9) -/

/-- A resumed state whose checkpoint already held 499 processed labels. -/
def st499 : BuilderState :=
  { cards_db := [], processed := (List.range 499).map fun n => "p" ++ toString n,
    saves := [], saveAttempts := 0 }

def env404 : Env := { fetch := fun _ => [Resp.notFound], saveFails := fun _ => false }

/-- Counterexample to C9 as stated: in a run resumed from a checkpoint
with 499 processed labels, the first periodic checkpoint save fires after
a single newly-processed label — the trigger counts the total size of the
processed set, not labels newly processed this run. -/
theorem checkpoint_interval_cex :
    st499.processed.length = 499 ∧
    (runTags env404 st499 ["storm"]).saves =
      [{ processed_tags := st499.processed ++ ["storm"], cards_db := [] }] :=
  ⟨rfl, rfl⟩

/-- C9 amended: a successfully processed label triggers a checkpoint-save
attempt precisely when the total size of the Processed-Label Set
(including labels inherited from a loaded checkpoint) reaches a multiple
of 500; in a fresh run this is every 500 newly-processed labels, but in a
resumed run the first interval is shorter. -/
theorem checkpoint_interval_amended (env : Env) (st : BuilderState) (tag : String)
    (cards : List Obj) (n : Nat) (db1 : Db)
    (h1 : tag ∉ st.processed) (h2 : search_tag (env.fetch tag) = .ok (cards, n))
    (h3 : mergeLoop st.cards_db tag cards = .ok db1) :
    (process_tag env st tag).saveAttempts =
      st.saveAttempts +
        (if (st.processed.length + 1) % CHECKPOINT_INTERVAL = 0 then 1 else 0) := by
  rw [process_tag_merge_ok env st tag cards n db1 h1 h2 h3]
  simp only [List.length_append, List.length_cons, List.length_nil, Nat.zero_add]
  split
  · split <;> simp
  · simp

/-- Witness for the amended C9: with 499 labels already processed, the
500th processed label triggers the save attempt. -/
theorem checkpoint_interval_witness :
    (process_tag env404 st499 "storm").saveAttempts =
      st499.saveAttempts +
        (if (st499.processed.length + 1) % CHECKPOINT_INTERVAL = 0 then 1 else 0) :=
  checkpoint_interval_amended env404 st499 "storm" [] 1 [] (by decide) rfl rfl

/-! ### Checkpoint-write failure (claim C3) -/

def env3 : Env := { fetch := fun _ => [Resp.notFound], saveFails := fun n => n == 1 }

/-- Counterexample to C3 as stated: the periodic checkpoint save
triggered while processing label `a` (the 500th processed label) raises,
yet the run does not terminate — it continues to label `b`, processes it,
and completes with exit status 0; only the final save (attempt 2)
succeeds. -/
theorem save_failure_cex :
    (mainRun env3 st499 ["a", "b"] none).isCompleted = true ∧
    "b" ∈ (mainRun env3 st499 ["a", "b"] none).state.processed ∧
    (mainRun env3 st499 ["a", "b"] none).state.saveAttempts = 2 ∧
    (mainRun env3 st499 ["a", "b"] none).state.saves.length = 1 ∧
    (mainRun env3 st499 ["a", "b"] none).exitCode = 0 :=
  ⟨rfl, by decide, rfl, rfl, rfl⟩

/-- C3 amended: only a failure of the final checkpoint save (after the
tag loop) propagates and makes the run exit with fatal status 1; a
failure of the periodic save inside `_process_tag` is caught by the
per-label handler — the label stays marked processed, no checkpoint is
recorded, and the loop continues with the next label. -/
theorem save_failure_amended :
    (∀ (env : Env) (st : BuilderState) (tags : List String),
      env.saveFails ((runTags env st tags).saveAttempts + 1) = true →
      mainRun env st tags none =
        .fatal { runTags env st tags with
                 saveAttempts := (runTags env st tags).saveAttempts + 1 } ∧
      (mainRun env st tags none).exitCode = 1) ∧
    (∀ (env : Env) (st : BuilderState) (tag : String) (cards : List Obj)
        (n : Nat) (db1 : Db),
      tag ∉ st.processed → search_tag (env.fetch tag) = .ok (cards, n) →
      mergeLoop st.cards_db tag cards = .ok db1 →
      (st.processed.length + 1) % CHECKPOINT_INTERVAL = 0 →
      env.saveFails (st.saveAttempts + 1) = true →
      process_tag env st tag =
        { st with cards_db := db1, processed := st.processed ++ [tag],
                  saveAttempts := st.saveAttempts + 1 } ∧
      (∀ rest, runTags env st (tag :: rest) =
        runTags env (process_tag env st tag) rest)) := by
  constructor
  · intro env st tags h
    have hm : mainRun env st tags none =
        .fatal { runTags env st tags with
                 saveAttempts := (runTags env st tags).saveAttempts + 1 } := by
      simp only [mainRun, build_database, h, if_true]
    exact ⟨hm, by rw [hm]; rfl⟩
  · intro env st tag cards n db1 h1 h2 h3 h4 h5
    have he : process_tag env st tag =
        { st with cards_db := db1, processed := st.processed ++ [tag],
                  saveAttempts := st.saveAttempts + 1 } := by
      rw [process_tag_merge_ok env st tag cards n db1 h1 h2 h3]
      simp only [List.length_append, List.length_cons, List.length_nil,
        Nat.zero_add]
      rw [if_pos h4, if_pos h5]
    exact ⟨he, fun rest => by simp only [runTags, List.foldl_cons]⟩

def env3f : Env := { fetch := fun _ => [], saveFails := fun _ => true }
def env3b : Env := { fetch := fun _ => [Resp.notFound], saveFails := fun _ => true }

/-- Witness for the amended C3 at concrete scenarios. -/
theorem save_failure_witness :
    (mainRun env3f initState [] none =
       .fatal { runTags env3f initState [] with
                saveAttempts := (runTags env3f initState []).saveAttempts + 1 } ∧
     (mainRun env3f initState [] none).exitCode = 1) ∧
    (process_tag env3b st499 "storm" =
       { st499 with cards_db := [], processed := st499.processed ++ ["storm"],
                    saveAttempts := st499.saveAttempts + 1 } ∧
     (∀ rest, runTags env3b st499 ("storm" :: rest) =
       runTags env3b (process_tag env3b st499 "storm") rest)) :=
  ⟨save_failure_amended.1 env3f initState [] rfl,
   save_failure_amended.2 env3b st499 "storm" [] 1 [] (by decide) rfl rfl
     (by decide) rfl⟩

/-! ### Interruption without a final save (claim C1) -/

def envC1 : Env := { fetch := fun _ => [Resp.notFound], saveFails := fun _ => false }

/-- Claim C1 names a code bug: a `KeyboardInterrupt` arriving after label
`storm` was fully merged (and before any periodic save was due) makes the
program print the resume notice and exit 0 — but `main`'s interrupt
handler performs no checkpoint save, so no saved checkpoint contains
`storm`: the checkpoint history of the run is empty even though the
in-memory state lists `storm` as processed. -/
theorem interrupt_no_final_save :
    (mainRun envC1 initState ["storm"] (some 1)).state.processed = ["storm"] ∧
    (mainRun envC1 initState ["storm"] (some 1)).state.saves = [] ∧
    (mainRun envC1 initState ["storm"] (some 1)).exitCode = 0 :=
  ⟨rfl, rfl, rfl⟩

/-! ### Resume equivalence (claim C2): merge-state predicates -/

/-- The record at `cid` exists and already carries `tag` — exactly the
situation in which a merge of `(tag, card-with-id-cid)` is a no-op. -/
def cardTagged (db : Db) (cid tag : String) : Prop :=
  ∃ rec ts, alookup db cid = some rec ∧ alookup rec "tags" = some (.arr ts) ∧
    ts.any (isStrEq · tag) = true

/-- Monotone extension: every tagged record of `db` is tagged in `db2`. -/
def dbLE (db db2 : Db) : Prop :=
  ∀ cid tag, cardTagged db cid tag → cardTagged db2 cid tag

/-- Every record of the table carries a `tags` array — true of everything
the engine ever stores (both insert paths write one). -/
def dbWF (db : Db) : Prop :=
  ∀ cid rec, alookup db cid = some rec → ∃ ts, alookup rec "tags" = some (.arr ts)

theorem dbLE_refl (db : Db) : dbLE db db := fun _ _ h => h

theorem dbLE_trans {a b c : Db} (h1 : dbLE a b) (h2 : dbLE b c) : dbLE a c :=
  fun cid tag h => h2 cid tag (h1 cid tag h)

/-- Full case decomposition of a successful `_add_or_update_card` call. -/
theorem add_ok_cases (db : Db) (card : Obj) (tag : String) (db1 : Db)
    (h : add_or_update_card db card tag = .ok db1) :
    ∃ cid, getId card = some cid ∧
      ((alookup db cid = none ∧
        db1 = ainsert db cid
          (ainsert (flatten_card_data card) "tags" (.arr [.str tag]))) ∨
       (∃ rec ts, alookup db cid = some rec ∧
         alookup rec "tags" = some (.arr ts) ∧
         ts.any (isStrEq · tag) = true ∧ db1 = db) ∨
       (∃ rec ts, alookup db cid = some rec ∧
         alookup rec "tags" = some (.arr ts) ∧
         ts.any (isStrEq · tag) = false ∧
         db1 = ainsert db cid (ainsert rec "tags" (.arr (ts ++ [.str tag])))) ∨
       (∃ rec, alookup db cid = some rec ∧ alookup rec "tags" = none ∧
         db1 = ainsert db cid (ainsert rec "tags" (.arr [.str tag])))) := by
  rcases hid : getId card with _ | cid
  · simp only [add_or_update_card, hid] at h
    cases h
  · refine ⟨cid, rfl, ?_⟩
    rcases hdb : alookup db cid with _ | rec
    · simp only [add_or_update_card, hid, hdb, Except.ok.injEq] at h
      exact Or.inl ⟨rfl, h.symm⟩
    · rcases htags : alookup rec "tags" with _ | v
      · simp only [add_or_update_card, hid, hdb, htags, Except.ok.injEq] at h
        exact Or.inr (Or.inr (Or.inr ⟨rec, rfl, htags, h.symm⟩))
      · rcases v with _ | b | n | s | ts | o <;>
          simp only [add_or_update_card, hid, hdb, htags] at h <;>
          try cases h
        case arr =>
        by_cases hmem : ts.any (isStrEq · tag) = true
        · rw [if_pos hmem] at h
          simp only [Except.ok.injEq] at h
          exact Or.inr (Or.inl ⟨rec, ts, rfl, htags, hmem, h.symm⟩)
        · rw [if_neg hmem] at h
          simp only [Except.ok.injEq] at h
          exact Or.inr (Or.inr (Or.inl
            ⟨rec, ts, rfl, htags, Bool.not_eq_true _ ▸ hmem, h.symm⟩))

/-- A successful merge only extends the set of tagged records. -/
theorem add_mono (db : Db) (card : Obj) (tag : String) (db1 : Db)
    (h : add_or_update_card db card tag = .ok db1) : dbLE db db1 := by
  obtain ⟨cid, hid, hcase⟩ := add_ok_cases db card tag db1 h
  intro cid' tag' ⟨rec', ts', hdb', htags', hmem'⟩
  rcases hcase with ⟨hnone, hdb1⟩ | ⟨rec, ts, hsome, htags, hmem, hdb1⟩ |
    ⟨rec, ts, hsome, htags, hmem, hdb1⟩ | ⟨rec, hsome, htags, hdb1⟩
  · by_cases hc : cid' = cid
    · rw [hc, hnone] at hdb'
      cases hdb'
    · exact ⟨rec', ts', by rw [hdb1, alookup_ainsert_ne db cid cid' _ hc]; exact hdb',
        htags', hmem'⟩
  · exact ⟨rec', ts', hdb1 ▸ hdb', htags', hmem'⟩
  · by_cases hc : cid' = cid
    · subst hc
      rw [hdb'] at hsome
      have hrec : rec' = rec := Option.some.inj hsome
      rw [← hrec] at htags
      rw [htags'] at htags
      have hts : ts' = ts := JVal.arr.inj (Option.some.inj htags)
      refine ⟨_, ts ++ [.str tag], by rw [hdb1]; exact alookup_ainsert_self ..,
        alookup_ainsert_self .., ?_⟩
      rw [List.any_append, ← hts, hmem']
      rfl
    · exact ⟨rec', ts', by rw [hdb1, alookup_ainsert_ne db cid cid' _ hc]; exact hdb',
        htags', hmem'⟩
  · by_cases hc : cid' = cid
    · subst hc
      rw [hdb'] at hsome
      have hrec : rec' = rec := Option.some.inj hsome
      rw [← hrec] at htags
      rw [htags'] at htags
      cases htags
    · exact ⟨rec', ts', by rw [hdb1, alookup_ainsert_ne db cid cid' _ hc]; exact hdb',
        htags', hmem'⟩

/-- A successful merge preserves table well-formedness. -/
theorem add_wf (db : Db) (card : Obj) (tag : String) (db1 : Db)
    (hwf : dbWF db) (h : add_or_update_card db card tag = .ok db1) : dbWF db1 := by
  obtain ⟨cid, hid, hcase⟩ := add_ok_cases db card tag db1 h
  intro cid' rec' hdb'
  rcases hcase with ⟨hnone, hdb1⟩ | ⟨rec, ts, hsome, htags, hmem, hdb1⟩ |
    ⟨rec, ts, hsome, htags, hmem, hdb1⟩ | ⟨rec, hsome, htags, hdb1⟩
  · by_cases hc : cid' = cid
    · subst hc
      rw [hdb1, alookup_ainsert_self] at hdb'
      have he := Option.some.inj hdb'
      exact ⟨[.str tag], by rw [← he]; exact alookup_ainsert_self ..⟩
    · rw [hdb1, alookup_ainsert_ne db cid cid' _ hc] at hdb'
      exact hwf cid' rec' hdb'
  · rw [hdb1] at hdb'
    exact hwf cid' rec' hdb'
  · by_cases hc : cid' = cid
    · subst hc
      rw [hdb1, alookup_ainsert_self] at hdb'
      have he := Option.some.inj hdb'
      exact ⟨ts ++ [.str tag], by rw [← he]; exact alookup_ainsert_self ..⟩
    · rw [hdb1, alookup_ainsert_ne db cid cid' _ hc] at hdb'
      exact hwf cid' rec' hdb'
  · by_cases hc : cid' = cid
    · subst hc
      rw [hdb1, alookup_ainsert_self] at hdb'
      have he := Option.some.inj hdb'
      exact ⟨[.str tag], by rw [← he]; exact alookup_ainsert_self ..⟩
    · rw [hdb1, alookup_ainsert_ne db cid cid' _ hc] at hdb'
      exact hwf cid' rec' hdb'

/-- On a well-formed table, the only way `_add_or_update_card` raises is
the `KeyError` for a payload without an id. -/
theorem add_err_getId (db : Db) (card : Obj) (tag : String) (e : Unit)
    (hwf : dbWF db) (h : add_or_update_card db card tag = .error e) :
    getId card = none := by
  rcases hid : getId card with _ | cid
  · rfl
  · exfalso
    rcases hdb : alookup db cid with _ | rec
    · simp only [add_or_update_card, hid, hdb] at h
      cases h
    · obtain ⟨ts, htags⟩ := hwf cid rec hdb
      simp only [add_or_update_card, hid, hdb, htags] at h
      by_cases hmem : ts.any (isStrEq · tag) = true
      · rw [if_pos hmem] at h
        cases h
      · rw [if_neg hmem] at h
        cases h

/-- The database a merge loop leaves behind, whether it completed or
raised part-way. -/
def exDb : Except Db Db → Db
  | .ok d => d
  | .error d => d

theorem mergeLoop_mono (tag : String) (cards : List Obj) :
    ∀ db, dbLE db (exDb (mergeLoop db tag cards)) := by
  induction cards with
  | nil => exact fun db => dbLE_refl db
  | cons c cs ih =>
    intro db
    rcases hadd : add_or_update_card db c tag with e | db1
    · simp only [mergeLoop, hadd, exDb]
      exact dbLE_refl db
    · simp only [mergeLoop, hadd]
      exact dbLE_trans (add_mono db c tag db1 hadd) (ih db1)

theorem mergeLoop_wf (tag : String) (cards : List Obj) :
    ∀ db, dbWF db → dbWF (exDb (mergeLoop db tag cards)) := by
  induction cards with
  | nil => exact fun db h => h
  | cons c cs ih =>
    intro db hwf
    rcases hadd : add_or_update_card db c tag with e | db1
    · simp only [mergeLoop, hadd, exDb]
      exact hwf
    · simp only [mergeLoop, hadd]
      exact ih db1 (add_wf db c tag db1 hwf hadd)

theorem mergeLoop_ok_tagged (tag : String) (cards : List Obj) :
    ∀ db db1, mergeLoop db tag cards = .ok db1 →
      ∀ c ∈ cards, ∃ i, getId c = some i ∧ cardTagged db1 i tag := by
  induction cards with
  | nil => intro db db1 _ c hc; cases hc
  | cons c0 cs ih =>
    intro db db1 h c hc
    rcases hadd : add_or_update_card db c0 tag with e | db2
    · simp only [mergeLoop, hadd] at h
      cases h
    · simp only [mergeLoop, hadd] at h
      rcases List.mem_cons.mp hc with rfl | hmem
      · rcases hid : getId c with _ | i
        · simp only [add_or_update_card, hid] at hadd
          cases hadd
        · refine ⟨i, rfl, ?_⟩
          have ht : cardTagged db2 i tag := add_ok_tagged db c tag db2 i hadd hid
          have hmono := mergeLoop_mono tag cs db2
          rw [h] at hmono
          exact hmono i tag ht
      · exact ih db2 db1 h c hmem

theorem mergeLoop_err_decomp (tag : String) (cards : List Obj) :
    ∀ db db1, dbWF db → mergeLoop db tag cards = .error db1 →
      ∃ front c0 rest2, cards = front ++ c0 :: rest2 ∧ getId c0 = none ∧
        ∀ c ∈ front, ∃ i, getId c = some i ∧ cardTagged db1 i tag := by
  induction cards with
  | nil =>
    intro db db1 _ h
    simp only [mergeLoop] at h
    cases h
  | cons c0 cs ih =>
    intro db db1 hwf h
    rcases hadd : add_or_update_card db c0 tag with e | db2
    · simp only [mergeLoop, hadd] at h
      exact ⟨[], c0, cs, rfl, add_err_getId db c0 tag e hwf hadd,
        fun c hc => absurd hc (List.not_mem_nil c)⟩
    · simp only [mergeLoop, hadd] at h
      obtain ⟨front, c1, rest2, hcards, hc1, hfront⟩ :=
        ih db2 db1 (add_wf db c0 tag db2 hwf hadd) h
      rcases hid : getId c0 with _ | i
      · simp only [add_or_update_card, hid] at hadd
        cases hadd
      · refine ⟨c0 :: front, c1, rest2, by rw [hcards, List.cons_append], hc1, ?_⟩
        intro c hc
        rcases List.mem_cons.mp hc with rfl | hmem
        · refine ⟨i, hid, ?_⟩
          have ht : cardTagged db2 i tag := add_ok_tagged db c tag db2 i hadd hid
          have hmono := mergeLoop_mono tag cs db2
          rw [h] at hmono
          exact hmono i tag ht
        · exact hfront c hmem

theorem mergeLoop_replay_ok (tag : String) (cards : List Obj) :
    ∀ db2, (∀ c ∈ cards, ∃ i, getId c = some i ∧ cardTagged db2 i tag) →
      mergeLoop db2 tag cards = .ok db2 := by
  induction cards with
  | nil => intro db2 _; rfl
  | cons c0 cs ih =>
    intro db2 hall
    obtain ⟨i, hid, rec, ts, hdb, htags, hmem⟩ := hall c0 (by simp)
    have hadd := add_noop db2 c0 tag i rec ts hid hdb htags hmem
    simp only [mergeLoop, hadd]
    exact ih db2 fun c hc => hall c (by simp [hc])

theorem mergeLoop_replay_err (tag : String) (front : List Obj) :
    ∀ db2 c0 rest2, getId c0 = none →
      (∀ c ∈ front, ∃ i, getId c = some i ∧ cardTagged db2 i tag) →
      mergeLoop db2 tag (front ++ c0 :: rest2) = .error db2 := by
  induction front with
  | nil =>
    intro db2 c0 rest2 hc0 _
    have hadd : add_or_update_card db2 c0 tag = .error () := by
      simp only [add_or_update_card, hc0]
    simp only [List.nil_append, mergeLoop, hadd]
  | cons c1 fr ih =>
    intro db2 c0 rest2 hc0 hall
    obtain ⟨i, hid, rec, ts, hdb, htags, hmem⟩ := hall c1 (by simp)
    have hadd := add_noop db2 c1 tag i rec ts hid hdb htags hmem
    simp only [List.cons_append, mergeLoop, hadd]
    exact ih db2 c0 rest2 hc0 fun c hc => hall c (by simp [hc])

/-- The part of the builder state that fetch and merge read and write:
the card table and the processed-tag set.  Checkpoint bookkeeping
(`saves`, `saveAttempts`) never feeds back into it. -/
def core (st : BuilderState) : Db × List String := (st.cards_db, st.processed)

/-- The core a successfully fetched-and-merged tag leaves behind,
whatever the checkpoint branch does. -/
theorem core_process_tag_merge_ok (env : Env) (st : BuilderState) (tag : String)
    (cards : List Obj) (n : Nat) (db1 : Db)
    (h1 : tag ∉ st.processed) (h2 : search_tag (env.fetch tag) = .ok (cards, n))
    (h3 : mergeLoop st.cards_db tag cards = .ok db1) :
    core (process_tag env st tag) = (db1, st.processed ++ [tag]) := by
  rw [process_tag_merge_ok env st tag cards n db1 h1 h2 h3]
  split
  · split <;> rfl
  · rfl

/-- Processing a tag only grows the processed set and the tagged records. -/
theorem process_tag_mono (env : Env) (st : BuilderState) (tag : String) :
    (∀ x ∈ st.processed, x ∈ (process_tag env st tag).processed) ∧
    dbLE st.cards_db (process_tag env st tag).cards_db := by
  by_cases hmem : tag ∈ st.processed
  · rw [process_tag_skip env st tag hmem]
    exact ⟨fun x hx => hx, dbLE_refl _⟩
  · rcases hs : search_tag (env.fetch tag) with e | ⟨cards, n⟩
    · cases e
      rw [process_tag_fetch_err env st tag hmem hs]
      exact ⟨fun x hx => hx, dbLE_refl _⟩
    · rcases hm : mergeLoop st.cards_db tag cards with dbMid | db1
      · rw [process_tag_merge_err env st tag cards n dbMid hmem hs hm]
        refine ⟨fun x hx => hx, ?_⟩
        have h := mergeLoop_mono tag cards st.cards_db
        rw [hm] at h
        exact h
      · have hcore := core_process_tag_merge_ok env st tag cards n db1 hmem hs hm
        have hp : (process_tag env st tag).processed = st.processed ++ [tag] :=
          congrArg Prod.snd hcore
        have hd : (process_tag env st tag).cards_db = db1 :=
          congrArg Prod.fst hcore
        constructor
        · intro x hx
          rw [hp]
          exact List.mem_append_left _ hx
        · rw [hd]
          have h := mergeLoop_mono tag cards st.cards_db
          rw [hm] at h
          exact h

/-- Processing a tag preserves table well-formedness. -/
theorem process_tag_wf (env : Env) (st : BuilderState) (tag : String)
    (hwf : dbWF st.cards_db) : dbWF (process_tag env st tag).cards_db := by
  by_cases hmem : tag ∈ st.processed
  · rw [process_tag_skip env st tag hmem]
    exact hwf
  · rcases hs : search_tag (env.fetch tag) with e | ⟨cards, n⟩
    · cases e
      rw [process_tag_fetch_err env st tag hmem hs]
      exact hwf
    · rcases hm : mergeLoop st.cards_db tag cards with dbMid | db1
      · rw [process_tag_merge_err env st tag cards n dbMid hmem hs hm]
        have h := mergeLoop_wf tag cards st.cards_db hwf
        rw [hm] at h
        exact h
      · have hcore := core_process_tag_merge_ok env st tag cards n db1 hmem hs hm
        have hd : (process_tag env st tag).cards_db = db1 :=
          congrArg Prod.fst hcore
        rw [hd]
        have h := mergeLoop_wf tag cards st.cards_db hwf
        rw [hm] at h
        exact h

/-- Processing a tag keeps the processed list duplicate-free (the model
of a Python set). -/
theorem process_tag_nodup (env : Env) (st : BuilderState) (tag : String)
    (hnd : st.processed.Nodup) : (process_tag env st tag).processed.Nodup := by
  by_cases hmem : tag ∈ st.processed
  · rw [process_tag_skip env st tag hmem]
    exact hnd
  · rcases hs : search_tag (env.fetch tag) with e | ⟨cards, n⟩
    · cases e
      rw [process_tag_fetch_err env st tag hmem hs]
      exact hnd
    · rcases hm : mergeLoop st.cards_db tag cards with dbMid | db1
      · rw [process_tag_merge_err env st tag cards n dbMid hmem hs hm]
        exact hnd
      · have hcore := core_process_tag_merge_ok env st tag cards n db1 hmem hs hm
        have hp : (process_tag env st tag).processed = st.processed ++ [tag] :=
          congrArg Prod.snd hcore
        rw [hp]
        simp [List.nodup_append, hnd, hmem]

theorem runTags_mono (env : Env) (tags : List String) :
    ∀ st, (∀ x ∈ st.processed, x ∈ (runTags env st tags).processed) ∧
      dbLE st.cards_db (runTags env st tags).cards_db := by
  induction tags with
  | nil => exact fun st => ⟨fun x hx => hx, dbLE_refl _⟩
  | cons t ts ih =>
    intro st
    have h1 := process_tag_mono env st t
    have h2 := ih (process_tag env st t)
    exact ⟨fun x hx => h2.1 x (h1.1 x hx), dbLE_trans h1.2 h2.2⟩

theorem runTags_wf (env : Env) (tags : List String) :
    ∀ st, dbWF st.cards_db → dbWF (runTags env st tags).cards_db := by
  induction tags with
  | nil => exact fun st h => h
  | cons t ts ih =>
    intro st hwf
    exact ih (process_tag env st t) (process_tag_wf env st t hwf)

theorem runTags_nodup (env : Env) (tags : List String) :
    ∀ st, st.processed.Nodup → (runTags env st tags).processed.Nodup := by
  induction tags with
  | nil => exact fun st h => h
  | cons t ts ih =>
    intro st hnd
    exact ih (process_tag env st t) (process_tag_nodup env st t hnd)

/-- Re-processing a tag that some earlier state already processed (or
attempted and failed identically) is a no-op on any later state that
kept its effects. -/
theorem process_tag_replay (env : Env) (st0 S : BuilderState) (tag : String)
    (hwf0 : dbWF st0.cards_db)
    (hsub : ∀ x ∈ (process_tag env st0 tag).processed, x ∈ S.processed)
    (hle : dbLE (process_tag env st0 tag).cards_db S.cards_db) :
    process_tag env S tag = S := by
  by_cases h0 : tag ∈ st0.processed
  · have h1 : tag ∈ S.processed := by
      apply hsub
      rw [process_tag_skip env st0 tag h0]
      exact h0
    exact process_tag_skip env S tag h1
  · rcases hs : search_tag (env.fetch tag) with e | ⟨cards, n⟩
    · cases e
      by_cases hS : tag ∈ S.processed
      · exact process_tag_skip env S tag hS
      · exact process_tag_fetch_err env S tag hS hs
    · rcases hm : mergeLoop st0.cards_db tag cards with dbMid | db1
      · by_cases hS : tag ∈ S.processed
        · exact process_tag_skip env S tag hS
        · rw [process_tag_merge_err env st0 tag cards n dbMid h0 hs hm] at hle
          obtain ⟨front, c0, rest2, hcards, hc0, hfront⟩ :=
            mergeLoop_err_decomp tag cards st0.cards_db dbMid hwf0 hm
          have hfrontS : ∀ c ∈ front, ∃ i, getId c = some i ∧
              cardTagged S.cards_db i tag := by
            intro c hc
            obtain ⟨i, hi, ht⟩ := hfront c hc
            exact ⟨i, hi, hle i tag ht⟩
          have hrep : mergeLoop S.cards_db tag cards = .error S.cards_db := by
            rw [hcards]
            exact mergeLoop_replay_err tag front S.cards_db c0 rest2 hc0 hfrontS
          rw [process_tag_merge_err env S tag cards n S.cards_db hS hs hrep]
      · have h1 : tag ∈ S.processed := by
          apply hsub
          have hp : (process_tag env st0 tag).processed = st0.processed ++ [tag] :=
            congrArg Prod.snd
              (core_process_tag_merge_ok env st0 tag cards n db1 h0 hs hm)
          rw [hp]
          simp
        exact process_tag_skip env S tag h1

/-- Replaying an already-run list of tags changes nothing. -/
theorem runTags_replay (env : Env) (pre : List String) :
    ∀ st0, dbWF st0.cards_db →
      runTags env (runTags env st0 pre) pre = runTags env st0 pre := by
  induction pre with
  | nil => intro st0 _; rfl
  | cons t pre' ih =>
    intro st0 hwf
    have hstep : runTags env st0 (t :: pre') =
        runTags env (process_tag env st0 t) pre' := rfl
    rw [hstep]
    have hmono := runTags_mono env pre' (process_tag env st0 t)
    have hnoop : process_tag env (runTags env (process_tag env st0 t) pre') t =
        runTags env (process_tag env st0 t) pre' :=
      process_tag_replay env st0 (runTags env (process_tag env st0 t) pre') t hwf
        hmono.1 hmono.2
    show runTags env
      (process_tag env (runTags env (process_tag env st0 t) pre') t) pre' = _
    rw [hnoop]
    exact ih (process_tag env st0 t) (process_tag_wf env st0 t hwf)

/-- Fetch and merge behaviour depends only on the core of the state:
two states agreeing on card table and processed set keep agreeing. -/
theorem core_process_tag (env : Env) (tag : String) (st st' : BuilderState)
    (hdb : st.cards_db = st'.cards_db) (hp : st.processed = st'.processed) :
    core (process_tag env st tag) = core (process_tag env st' tag) := by
  by_cases hmem : tag ∈ st.processed
  · rw [process_tag_skip env st tag hmem,
        process_tag_skip env st' tag (hp ▸ hmem)]
    simp [core, hdb, hp]
  · have hmem' : tag ∉ st'.processed := fun h => hmem (hp ▸ h)
    rcases hs : search_tag (env.fetch tag) with e | ⟨cards, n⟩
    · cases e
      rw [process_tag_fetch_err env st tag hmem hs,
          process_tag_fetch_err env st' tag hmem' hs]
      simp [core, hdb, hp]
    · rcases hm : mergeLoop st.cards_db tag cards with dbMid | db1
      · rw [process_tag_merge_err env st tag cards n dbMid hmem hs hm,
            process_tag_merge_err env st' tag cards n dbMid hmem' hs
              (by rw [← hdb]; exact hm)]
        simp [core, hp]
      · rw [core_process_tag_merge_ok env st tag cards n db1 hmem hs hm,
            core_process_tag_merge_ok env st' tag cards n db1 hmem' hs
              (by rw [← hdb]; exact hm)]
        rw [hp]

theorem core_runTags (env : Env) (tags : List String) :
    ∀ st st', st.cards_db = st'.cards_db → st.processed = st'.processed →
      core (runTags env st tags) = core (runTags env st' tags) := by
  induction tags with
  | nil =>
    intro st st' hdb hp
    simp [runTags, core, hdb, hp]
  | cons t ts ih =>
    intro st st' hdb hp
    have h := core_process_tag env t st st' hdb hp
    exact ih (process_tag env st t) (process_tag env st' t)
      (congrArg Prod.fst h) (congrArg Prod.snd h)

theorem runTags_append (env : Env) (st : BuilderState) (l1 l2 : List String) :
    runTags env st (l1 ++ l2) = runTags env (runTags env st l1) l2 := by
  simp [runTags, List.foldl_append]

/-- Claim C2 (resume equivalence): for any deterministic per-tag response
environment, running all tags from a fresh builder yields the same card
table as running any prefix, saving the checkpoint, loading it into a
fresh builder, and running all tags again.  The tables are equal
outright, hence so are their id sets and every record's flattened fields
and tag set. -/
theorem resume_equivalence (env : Env) (tags : List String) (k : Nat) :
    (runTags env
      (load_checkpoint (checkpointOf (runTags env initState (tags.take k))))
      tags).cards_db
      = (runTags env initState tags).cards_db := by
  have hwf0 : dbWF initState.cards_db := by
    intro cid rec h
    simp [initState, alookup] at h
  have hnd : (runTags env initState (tags.take k)).processed.Nodup :=
    runTags_nodup env (tags.take k) initState (by simp [initState])
  have hload_db : (load_checkpoint (checkpointOf
      (runTags env initState (tags.take k)))).cards_db
      = (runTags env initState (tags.take k)).cards_db := rfl
  have hload_p : (load_checkpoint (checkpointOf
      (runTags env initState (tags.take k)))).processed
      = (runTags env initState (tags.take k)).processed := by
    show (runTags env initState (tags.take k)).processed.dedup = _
    exact List.dedup_eq_self.mpr hnd
  have hcore := core_runTags env tags _ _ hload_db hload_p
  have h1 : (runTags env
      (load_checkpoint (checkpointOf (runTags env initState (tags.take k))))
      tags).cards_db
      = (runTags env (runTags env initState (tags.take k)) tags).cards_db :=
    congrArg Prod.fst hcore
  rw [h1]
  have hsplit : ∀ st : BuilderState,
      runTags env st tags =
        runTags env (runTags env st (tags.take k)) (tags.drop k) := by
    intro st
    conv_lhs => rw [← List.take_append_drop k tags]
    exact runTags_append env st _ _
  rw [hsplit (runTags env initState (tags.take k)), hsplit initState,
    runTags_replay env (tags.take k) initState hwf0]
